import Mathlib

/-!
Verification of the benchmark harness scripts of this repository
(`scripts/benchmark_cold_start.py` and `scripts/generate_benchmark_chart.py`).

The Python code is shallowly embedded: pure text manipulation becomes
functions on `List Char`, the effectful binary-acquisition routine becomes a
state-passing function whose fallible primitives are driven by an explicit
environment, and CPython float values arising from the benchmark JSON are
modelled as exact rationals (the claims under study concern format selection
thresholds and digit counts, not binary rounding of doubles).
-/

set_option maxRecDepth 1000000

namespace Rumdl

/-! ### Decimal formatting (CPython `format(x, ".Nf")` semantics over ℚ)

CPython formats a float to `N` decimal places by rounding the value to the
nearest multiple of `10^-N`, ties to even.  `rne` is that rounding to an
integer.  (Divergence note: CPython renders a negative value that rounds to
zero as "-0"; this embedding renders it "0".  No claim is settled in that
corner.) -/

/-- Round a rational to the nearest integer, ties to even. -/
def rne (q : ℚ) : ℤ :=
  let f : ℤ := ⌊q⌋
  let r : ℚ := q - f
  if r < 1/2 then f
  else if 1/2 < r then f + 1
  else if f % 2 = 0 then f else f + 1

/-- Character for a decimal digit `d < 10`. -/
def digitChar (d : Nat) : Char := Char.ofNat (48 + d)

/-- Decimal digits of `n`, most significant first; `[]` for `0`.
Fuel-indexed so that it reduces definitionally (fuel `n + 1` suffices). -/
def natReprAux : Nat → Nat → List Char
  | 0, _ => []
  | _ + 1, 0 => []
  | fuel + 1, n => natReprAux fuel (n / 10) ++ [digitChar (n % 10)]

/-- Decimal rendering of a natural number, as CPython renders integers. -/
def natRepr (n : Nat) : List Char :=
  if n = 0 then ['0'] else natReprAux (n + 1) n

/-- Decimal rendering of an integer. -/
def intRepr (n : ℤ) : List Char :=
  (if n < 0 then ['-'] else []) ++ natRepr n.natAbs

/-- Left-pad a digit string with zeros to at least `d + 1` characters, so a
value below one still renders an integer part (`0.06`, not `.06`). -/
def padTo (d : Nat) (s : List Char) : List Char :=
  if s.length < d + 1 then List.replicate (d + 1 - s.length) '0' ++ s else s

/-- CPython `format(q, "." ++ toString d ++ "f")`: fixed-point rendering with
`d` digits after the decimal point (none when `d = 0`), rounding ties to
even. -/
def fmtFixed (d : Nat) (q : ℚ) : List Char :=
  let n : ℤ := rne (q * (10 : ℚ) ^ d)
  let s := padTo d (natRepr n.natAbs)
  let sign := if n < 0 then ['-'] else ([] : List Char)
  if d = 0 then sign ++ s
  else sign ++ s.take (s.length - d) ++ ['.'] ++ s.drop (s.length - d)

/-- Python `f"{s:<w}"`: left justification to width `w` with spaces
(strings longer than `w` are kept whole). -/
def padRight (w : Nat) (s : List Char) : List Char :=
  s ++ List.replicate (w - s.length) ' '

/-! ### Result records and the stable sort

`ResultRecord` models one entry of `data["results"]` in
`benchmark/results/cold_start.json`: a command label and a mean duration in
seconds.  Python `sorted(..., key=...)` is the stable ascending sort; any two
stable sorts with respect to a total preorder agree extensionally, so it is
embedded as `List.insertionSort` (structural, hence evaluable). -/

structure ResultRecord where
  command : String
  mean : ℚ
deriving DecidableEq

/-- Comparison used by `sorted(results, key=lambda r: r["mean"])`. -/
def meanLE (a b : ResultRecord) : Prop := a.mean ≤ b.mean

instance : DecidableRel meanLE := fun a b => inferInstanceAs (Decidable (a.mean ≤ b.mean))

/-- `sorted_results = sorted(results, key=lambda r: r["mean"])`
(generate_benchmark_chart.py line 186). -/
def sortedResults (records : List ResultRecord) : List ResultRecord :=
  List.insertionSort meanLE records

/-! ### The table rewrite of `update_comparison_doc`
(generate_benchmark_chart.py lines 172–228) -/

/-- The fixed `categories` dict (lines 175–184). -/
def categories : List (String × String) :=
  [("rumdl", "Lint"), ("markdownlint-cli", "Lint"), ("markdownlint-cli2", "Lint"),
   ("remark-lint", "Lint"), ("pymarkdown", "Lint"), ("mado", "Lint"),
   ("mdformat", "Format"), ("Prettier", "Format")]

/-- `categories.get(name, "Lint")` (line 196). -/
def catOf (name : String) : String :=
  (((categories.find? (fun p => p.1 == name))).map (fun p => p.2)).getD "Lint"

/-- `rumdl_mean = next((r["mean"] for r in sorted_results if r["command"] == "rumdl"), None)`
(lines 187–189), applied to the already sorted list. -/
def findRumdlMean (sorted : List ResultRecord) : Option ℚ :=
  ((sorted.find? (fun r => r.command == "rumdl"))).map (fun r => r.mean)

/-- The mean cell (lines 198–201):
`f"{mean_s * 1000:.0f} ms"` when `mean_s < 1`, else `f"{mean_s:.1f} s"`. -/
def meanStr (mean_s : ℚ) : List Char :=
  if mean_s < 1 then fmtFixed 0 (mean_s * 1000) ++ (" ms").toList
  else fmtFixed 1 mean_s ++ (" s").toList

/-- The ratio cell (lines 203–210).  The Python guard is
`if rumdl_mean and rumdl_mean > 0`: `None` and `0.0` are falsy, so the ratio
is computed exactly when a baseline mean is present and positive. -/
def vsStr (rumdlMean : Option ℚ) (mean_s : ℚ) : List Char :=
  match rumdlMean with
  | some m =>
    if 0 < m then
      let ratio := mean_s / m
      if ratio < 1/10 then fmtFixed 2 ratio ++ ['x'] else fmtFixed 1 ratio ++ ['x']
    else ("-").toList
  | none => ("-").toList

/-- One table row (lines 212–213):
`f"| {bold_name:<23s} | {cat:<6s} | {mean_str:<6s} | {vs_str:<8s} |"`
with `bold_name = f"**{name}**"`. -/
def buildRow (rumdlMean : Option ℚ) (r : ResultRecord) : List Char :=
  let boldName := ("**").toList ++ r.command.toList ++ ("**").toList
  ("| ").toList ++ padRight 23 boldName
    ++ (" | ").toList ++ padRight 6 (catOf r.command).toList
    ++ (" | ").toList ++ padRight 6 (meanStr r.mean)
    ++ (" | ").toList ++ padRight 8 (vsStr rumdlMean r.mean)
    ++ (" |").toList

/-- The `rows` list (lines 192–213): one row per record of the sorted list. -/
def buildRows (records : List ResultRecord) : List (List Char) :=
  let sorted := sortedResults records
  (sorted).map (buildRow (findRumdlMean sorted))

/-- `table_header` (lines 216–219). -/
def tableHeader : List Char :=
  ("| Tool                    | Type   | Mean   | vs rumdl |\n| ----------------------- | ------ | ------ | -------- |").toList

/-- `new_table = table_header + "\n" + newline-joined rows + "\n"` (line 225). -/
def newTable (records : List ResultRecord) : List Char :=
  tableHeader ++ ['\n'] ++ List.intercalate ['\n'] (buildRows records) ++ ['\n']

/-! ### The chart of `generate_chart`
(generate_benchmark_chart.py lines 36–95): times in milliseconds, stable
ascending sort by time, and the bar label text. -/

/-- `zip(tools, times)` with `times = [r["mean"] * 1000 for r in results]`
(lines 38–39). -/
def chartPairs (records : List ResultRecord) : List (String × ℚ) :=
  (records).map (fun r => (r.command, r.mean * 1000))

/-- Comparison used by `sorted(zip(tools, times), key=lambda x: x[1])` (line 42). -/
def timeLE (a b : String × ℚ) : Prop := a.2 ≤ b.2

instance : DecidableRel timeLE := fun a b => inferInstanceAs (Decidable (a.2 ≤ b.2))

/-- The sorted bar sequence (line 42), fastest first. -/
def chartSorted (records : List ResultRecord) : List (String × ℚ) :=
  List.insertionSort timeLE (chartPairs records)

/-- The value label of one bar (lines 82–85):
`f"{time:.0f}ms"` when `time < 1000`, else `f"{time / 1000:.1f}s"`. -/
def barLabel (time : ℚ) : List Char :=
  if time < 1000 then fmtFixed 0 time ++ ("ms").toList
  else fmtFixed 1 (time / 1000) ++ ("s").toList

/-! ### The three anchor patterns of `update_comparison_doc`

Each Python regex used by the synchronizer is embedded as a matcher
`List Char → Option Nat` returning the length of the match anchored at the
start of the input, or `none`.  Every repetition operator in those regexes
(`\w+`, `\d{4}`, `\s+`, `\s*`, `[\s-]+`, `(?:\|.*\|\n)*`, `.*`) is followed
either by a character outside the repeated class or by the end of the
pattern, so maximal munch computes exactly the backtracking semantics.
Character classes follow the ASCII reading of `\w`, `\d`, `\s` (the anchors
being matched are ASCII). -/

/-- Python `\w` (ASCII range): letters, digits, underscore. -/
def isWordChar (c : Char) : Bool := c.isAlphanum || c = '_'

/-- Python `\s` (ASCII range). -/
def isSpaceChar (c : Char) : Bool :=
  c = ' ' || c = '\t' || c = '\n' || c = '\x0b' || c = '\x0c' || c = '\r'

/-- Python `[\s-]`. -/
def isSpaceDash (c : Char) : Bool := isSpaceChar c || c = '-'

/-- Match a literal string, returning the remainder. -/
def dropLit : List Char → List Char → Option (List Char)
  | [], s => some s
  | _ :: _, [] => none
  | c :: p, d :: s => if d = c then dropLit p s else none

/-- Greedy one-or-more repetition of a character class (maximal munch). -/
def munch1 (p : Char → Bool) : List Char → Option (List Char)
  | [] => none
  | c :: s => if p c then some (s.dropWhile p) else none

/-- Exactly `n` repetitions of a digit (`\d{n}`). -/
def digitsN : Nat → List Char → Option (List Char)
  | 0, s => some s
  | _ + 1, [] => none
  | n + 1, c :: s => if c.isDigit then digitsN n s else none

/-- The regex `Last verified: \w+ \d{4}\.` (line 156). -/
def matchVerified (s : List Char) : Option Nat := do
  let r ← dropLit ("Last verified: ").toList s
  let r ← munch1 isWordChar r
  let r ← dropLit (" ").toList r
  let r ← digitsN 4 r
  let r ← dropLit (".").toList r
  pure (s.length - r.length)

/-- The regex `Last run:\n> \w+ \d{4}\.` (line 165). -/
def matchLastRun (s : List Char) : Option Nat := do
  let r ← dropLit ("Last run:\n> ").toList s
  let r ← munch1 isWordChar r
  let r ← dropLit (" ").toList r
  let r ← digitsN 4 r
  let r ← dropLit (".").toList r
  pure (s.length - r.length)

/-- First line of the table regex (line 221):
`\| Tool\s+\| Type\s+\| Mean\s+\| vs rumdl\s*\|\n`. -/
def matchHeaderLine (s : List Char) : Option (List Char) := do
  let r ← dropLit ("| Tool").toList s
  let r ← munch1 isSpaceChar r
  let r ← dropLit ("| Type").toList r
  let r ← munch1 isSpaceChar r
  let r ← dropLit ("| Mean").toList r
  let r ← munch1 isSpaceChar r
  let r ← dropLit ("| vs rumdl").toList r
  let r := r.dropWhile isSpaceChar
  dropLit ("|\n").toList r

/-- Second line of the table regex (line 222):
`\|[\s-]+\|[\s-]+\|[\s-]+\|[\s-]+\|\n`. -/
def matchSepLine (s : List Char) : Option (List Char) := do
  let r ← dropLit ("|").toList s
  let r ← munch1 isSpaceDash r
  let r ← dropLit ("|").toList r
  let r ← munch1 isSpaceDash r
  let r ← dropLit ("|").toList r
  let r ← munch1 isSpaceDash r
  let r ← dropLit ("|").toList r
  let r ← munch1 isSpaceDash r
  dropLit ("|\n").toList r

/-- One table row `\|.*\|\n` (line 223): with `.` not matching a newline,
a match runs to the first newline, which must be preceded by a second `|`. -/
def matchRowLine : List Char → Option (List Char)
  | '|' :: rest =>
    let u := rest.takeWhile (fun c => c != '\n')
    match rest.drop u.length with
    | '\n' :: tail =>
      match u.getLast? with
      | some '|' => some tail
      | _ => none
    | _ => none
  | _ => none

/-- Greedy star over table rows, `(?:\|.*\|\n)*`.  Fuel-indexed so that it
reduces definitionally; each row consumes at least three characters, so fuel
equal to the remaining length never runs out. -/
def matchRowsAux : Nat → List Char → List Char
  | 0, s => s
  | fuel + 1, s =>
    match matchRowLine s with
    | some t => matchRowsAux fuel t
    | none => s

/-- The whole `table_pattern` regex (lines 220–224). -/
def matchTable (s : List Char) : Option Nat := do
  let r ← matchHeaderLine s
  let r ← matchSepLine r
  let r := matchRowsAux r.length r
  pure (s.length - r.length)

/-! ### `re.subn`: the global scan-and-replace

`subn μ repl s` scans `s` left to right; at each position where `μ` matches
it emits `repl`, skips the matched characters and resumes after them,
otherwise it copies one character — exactly the semantics of Python
`re.subn(pattern, repl, s)` (for patterns that cannot match the empty
string; all three patterns above consume at least one character).  The
replacement text contains no backslash escapes in this program, so it is
inserted verbatim.  Fuel-indexed (one unit per position) so that it reduces
definitionally; `subn` passes fuel `s.length`, which always suffices. -/

def subnAux (μ : List Char → Option Nat) (repl : List Char) :
    Nat → List Char → List Char × Nat
  | _, [] => ([], 0)
  | 0, s => (s, 0)
  | fuel + 1, c :: rest =>
    match μ (c :: rest) with
    | some k =>
      let t := subnAux μ repl fuel (rest.drop (k - 1))
      (repl ++ t.1, t.2 + 1)
    | none =>
      let t := subnAux μ repl fuel rest
      (c :: t.1, t.2)

/-- Python `re.subn(pattern, repl, s)`: the rewritten text and the number of
replacements made. -/
def subn (μ : List Char → Option Nat) (repl s : List Char) : List Char × Nat :=
  subnAux μ repl s.length s

/-- `noMatchBelow μ p t = true` iff the pattern matches at no position
inside the prefix `p` of the text `p ++ t`. -/
def noMatchBelow (μ : List Char → Option Nat) : List Char → List Char → Bool
  | [], _ => true
  | c :: p, t => (μ ((c :: p) ++ t)).isNone && noMatchBelow μ p t

/-- Reassemble a decomposition of a text into leading segments and match
sites: `assemble [(m₁, s₁), …, (mₖ, sₖ)] = m₁ ++ s₁ ++ … ++ mₖ ++ sₖ`. -/
def assemble (occs : List (List Char × List Char)) : List Char :=
  ((occs).map (fun p => p.1 ++ p.2)).flatten

/-- The same decomposition with every match site replaced by `repl`. -/
def assembleR (repl : List Char) (occs : List (List Char × List Char)) : List Char :=
  ((occs).map (fun p => repl ++ p.2)).flatten

/-- `segsOk μ occs = true` iff in `assemble occs` each `mᵢ` is a
(nonempty) match of `μ` of exactly its own length and no match starts
inside any `sᵢ`: the `mᵢ` are precisely the match sites the scan hits. -/
def segsOk (μ : List Char → Option Nat) : List (List Char × List Char) → Bool
  | [] => true
  | (m, s) :: rest =>
    !m.isEmpty && (μ (m ++ s ++ assemble rest) == some m.length)
      && noMatchBelow μ s (assemble rest) && segsOk μ rest

/-! ### `update_comparison_doc` itself (lines 151–231)

The file-system boundary (existence check, read, write) is the trivial
wrapper; the embedded function is the text transformation applied between
`doc_path.read_text()` and `doc_path.write_text(content)`, parameterized by
`date_str = datetime.now().strftime("%B %Y")` and by the parsed result
records.  It also returns the warning lines printed for absent anchors
(quote marks of the original messages elided). -/

/-- `f"Last verified: {date_str}."` (line 157). -/
def repVerified (dateStr : List Char) : List Char :=
  ("Last verified: ").toList ++ dateStr ++ ['.']

/-- `f"Last run:\n> {date_str}."` (line 166). -/
def repLastRun (dateStr : List Char) : List Char :=
  ("Last run:\n> ").toList ++ dateStr ++ ['.']

/-- First substitution (lines 155–159). -/
def subVerified (dateStr content : List Char) : List Char × Nat :=
  subn matchVerified (repVerified dateStr) content

/-- Second substitution (lines 164–168). -/
def subLastRun (dateStr content : List Char) : List Char × Nat :=
  subn matchLastRun (repLastRun dateStr) content

/-- Table substitution, `table_pattern.sub(new_table, content)` (line 228);
the count doubles as the `table_pattern.search` result of line 226. -/
def subTable (records : List ResultRecord) (content : List Char) : List Char × Nat :=
  subn matchTable (newTable records) content

/-- The document transformation of `update_comparison_doc`: rewritten
content plus warning lines. -/
def updateContent (dateStr : List Char) (records : List ResultRecord)
    (content : List Char) : List Char × List String :=
  let r1 := subVerified dateStr content
  let w1 : List String :=
    if r1.2 = 0 then ["⚠️  Could not find Last verified date to update"] else []
  let r2 := subLastRun dateStr r1.1
  let w2 : List String :=
    if r2.2 = 0 then ["⚠️  Could not find Last run date to update"] else []
  let r3 := subTable records r2.1
  let w3 : List String :=
    if r3.2 = 0 then ["⚠️  Could not find benchmark results table to update"] else []
  (r3.1, w1 ++ w2 ++ w3)

/-! ### Laws of the `subn` scan -/

theorem subnAux_nil (μ : List Char → Option Nat) (repl : List Char) (fuel : Nat) :
    subnAux μ repl fuel [] = ([], 0) := by
  cases fuel <;> rfl

theorem subnAux_fuel (μ : List Char → Option Nat) (repl : List Char) :
    ∀ (f1 f2 : Nat) (s : List Char), s.length ≤ f1 → s.length ≤ f2 →
      subnAux μ repl f1 s = subnAux μ repl f2 s := by
  intro f1
  induction f1 with
  | zero =>
    intro f2 s h1 _
    have hs : s = [] := List.eq_nil_of_length_eq_zero (Nat.le_zero.mp h1)
    subst hs
    rw [subnAux_nil, subnAux_nil]
  | succ f ih =>
    intro f2 s h1 h2
    cases s with
    | nil => rw [subnAux_nil, subnAux_nil]
    | cons c rest =>
      cases f2 with
      | zero => simp at h2
      | succ g =>
        simp only [List.length_cons, Nat.succ_le_succ_iff] at h1 h2
        simp only [subnAux]
        cases hμ : μ (c :: rest) with
        | some k =>
          have hd : (rest.drop (k - 1)).length ≤ rest.length := by
            rw [List.length_drop]; omega
          dsimp only
          rw [ih g (rest.drop (k - 1)) (le_trans hd h1) (le_trans hd h2)]
        | none =>
          dsimp only
          rw [ih g rest h1 h2]

theorem subn_nil (μ : List Char → Option Nat) (repl : List Char) :
    subn μ repl [] = ([], 0) := rfl

theorem subn_cons_none {μ : List Char → Option Nat} {c : Char} {s : List Char}
    (repl : List Char) (hμ : μ (c :: s) = none) :
    subn μ repl (c :: s) = (c :: (subn μ repl s).1, (subn μ repl s).2) := by
  simp only [subn, List.length_cons, subnAux, hμ]

theorem subn_cons_some {μ : List Char → Option Nat} {c : Char} {s : List Char} {k : Nat}
    (repl : List Char) (hμ : μ (c :: s) = some k) :
    subn μ repl (c :: s) =
      (repl ++ (subn μ repl (s.drop (k - 1))).1, (subn μ repl (s.drop (k - 1))).2 + 1) := by
  simp only [subn, List.length_cons, subnAux, hμ]
  rw [subnAux_fuel μ repl s.length (s.drop (k - 1)).length (s.drop (k - 1))
    (by rw [List.length_drop]; omega) (le_refl _)]

/-- Scanning past a prefix in which the pattern never matches copies it. -/
theorem subn_skip {μ : List Char → Option Nat} {p t : List Char} (repl : List Char)
    (h : noMatchBelow μ p t = true) :
    subn μ repl (p ++ t) = (p ++ (subn μ repl t).1, (subn μ repl t).2) := by
  induction p with
  | nil => simp
  | cons c p ih =>
    simp only [noMatchBelow, Bool.and_eq_true, Option.isNone_iff_eq_none] at h
    obtain ⟨h1, h2⟩ := h
    rw [List.cons_append] at h1 ⊢
    rw [subn_cons_none repl h1, ih h2]
    simp

/-- A text with no match at any position is returned unchanged. -/
theorem subn_of_noMatch {μ : List Char → Option Nat} {s : List Char} (repl : List Char)
    (h : noMatchBelow μ s [] = true) :
    subn μ repl s = (s, 0) := by
  have := subn_skip repl h
  simpa [subn_nil] using this

/-- Scanning from a match site replaces the match and resumes after it. -/
theorem subn_match {μ : List Char → Option Nat} {m t : List Char} (repl : List Char)
    (hm : μ (m ++ t) = some m.length) (hne : m ≠ []) :
    subn μ repl (m ++ t) = (repl ++ (subn μ repl t).1, (subn μ repl t).2 + 1) := by
  cases m with
  | nil => exact absurd rfl hne
  | cons c m2 =>
    rw [List.cons_append] at hm ⊢
    rw [subn_cons_some repl hm]
    simp only [List.length_cons, Nat.add_sub_cancel]
    rw [List.drop_left]

/-- A decomposition into match sites is rewritten site by site. -/
theorem subn_assemble {μ : List Char → Option Nat} {occs : List (List Char × List Char)}
    (repl : List Char) (hs : segsOk μ occs = true) :
    subn μ repl (assemble occs) = (assembleR repl occs, occs.length) := by
  induction occs with
  | nil => simp [assemble, assembleR, subn_nil]
  | cons q rest ih =>
    obtain ⟨m, s⟩ := q
    simp only [segsOk, Bool.and_eq_true, beq_iff_eq, Bool.not_eq_true'] at hs
    obtain ⟨⟨⟨hne, hm⟩, hnb⟩, hrest⟩ := hs
    have hne2 : m ≠ [] := by intro h; subst h; simp at hne
    have hasm : assemble ((m, s) :: rest) = m ++ (s ++ assemble rest) := by
      simp [assemble]
    have hasmR : assembleR repl ((m, s) :: rest) = repl ++ (s ++ assembleR repl rest) := by
      simp [assembleR]
    rw [hasm, hasmR]
    rw [List.append_assoc] at hm
    rw [subn_match repl hm hne2]
    rw [subn_skip repl hnb, ih hrest]
    simp

/-- The full law of one `re.subn` pass: a text decomposed as a no-match
prefix followed by match sites separated by no-match segments is rewritten
by replacing exactly the match sites, leaving all other bytes unchanged,
and the returned count is the number of sites. -/
theorem subn_segments {μ : List Char → Option Nat} {s0 : List Char}
    {occs : List (List Char × List Char)} (repl : List Char)
    (h0 : noMatchBelow μ s0 (assemble occs) = true) (hs : segsOk μ occs = true) :
    subn μ repl (s0 ++ assemble occs) = (s0 ++ assembleR repl occs, occs.length) := by
  rw [subn_skip repl h0, subn_assemble repl hs]

/-! ### `_ensure_mado` (benchmark_cold_start.py lines 95–162)

The routine is embedded as a state-passing function.  The environment fixes
the outcome of each effectful primitive: the platform probes, and for each
fallible operation whether it raises.  The state tracks which paths exist,
how many network fetches were attempted, and the lines printed.  The result
is `Except Unit Bool`: `.ok b` models a normal return of `b`, `.error ()`
models a Python exception escaping the function.  When the download or the
extraction raises, the partially written file is not recorded as existing
(CPython leaves this unspecified; no claim hinges on it). -/

deriving instance DecidableEq for Except

structure MadoEnv where
  /-- `platform.system()` (line 105). -/
  system : String
  /-- `platform.machine()` (line 106). -/
  machine : String
  /-- `MADO_TOOLS_DIR.mkdir(parents=True, exist_ok=True)` (line 128) raises. -/
  mkdirErr : Bool
  /-- `urllib.request.urlretrieve` (line 132) raises. -/
  downloadErr : Bool
  /-- entry names of `tar.getmembers()` (line 137), used for a `.tar.gz` asset. -/
  tarMembers : List String
  /-- entry names of `zf.namelist()` (line 144), used for a `.zip` asset. -/
  zipNames : List String
  /-- extraction (`tar.extract`, line 140, or the read/write of lines 146–148) raises. -/
  extractErr : Bool
  /-- `archive_path.unlink()` (line 151) raises. -/
  unlinkErr : Bool
  /-- `bin_path.chmod(0o755)` (line 154) raises. -/
  chmodErr : Bool
deriving DecidableEq

structure MadoSt where
  /-- set of existing file paths. -/
  files : List String
  /-- number of network fetches attempted. -/
  downloads : Nat
  /-- lines printed so far. -/
  logs : List String
deriving DecidableEq

/-- `_mado_bin_path()` = `MADO_TOOLS_DIR / "mado"` (lines 76, 95–96). -/
def binPath : String := "benchmark/.tools/mado"

/-- OS-name token (lines 108–113). -/
def osNameOf (system : String) : String :=
  if system = "Darwin" then "macOS"
  else if system = "Linux" then "Linux-gnu"
  else "Windows-msvc"

/-- architecture token (lines 115–118). -/
def archOf (machine : String) : String :=
  if machine = "arm64" ∨ machine = "aarch64" then "arm64" else "x86_64"

/-- `asset_name` (lines 120–123): a `.zip` exactly when `system == "Windows"`. -/
def assetNameOf (e : MadoEnv) : String :=
  if e.system = "Windows" then
    "mado-" ++ osNameOf e.system ++ "-" ++ archOf e.machine ++ ".zip"
  else
    "mado-" ++ osNameOf e.system ++ "-" ++ archOf e.machine ++ ".tar.gz"

/-- `archive_path = MADO_TOOLS_DIR / asset_name` (line 131). -/
def archivePath (e : MadoEnv) : String := "benchmark/.tools/" ++ assetNameOf e

/-- Python `s.endswith(p)`, computed on the character lists. -/
def pyEndsWith (s p : String) : Bool :=
  p.toList == (s.toList).drop (s.toList.length - p.toList.length)

/-- the first matching tar member (lines 137–138). -/
def tarFind (members : List String) : Option String :=
  members.find? (fun m => pyEndsWith m "/mado" || m == "mado")

/-- the first matching zip name (lines 144–145). -/
def zipFind (names : List String) : Option String :=
  names.find? (fun m => pyEndsWith m "/mado" || pyEndsWith m "/mado.exe")

def msgDownloading : String := "   Downloading mado"
def msgNotFound : String := "   ⚠️  Could not find mado binary in archive"
def msgFailed : String := "   ⚠️  Failed to download mado"

/-- The archive-format branch of the `try` block (lines 134–149): scan the
archive listing for the binary entry and, when one is found, extract it to
the canonical path.  `none` models an exception raised by the extraction
itself; when no entry matches, nothing is written and nothing raises. -/
def extractStep (e : MadoEnv) (st : MadoSt) : Option MadoSt :=
  if pyEndsWith (assetNameOf e) ".tar.gz" then
    match tarFind e.tarMembers with
    | some _ =>
      if e.extractErr then none
      else some { st with files := binPath :: st.files }
    | none => some st
  else if pyEndsWith (assetNameOf e) ".zip" then
    match zipFind e.zipNames with
    | some _ =>
      if e.extractErr then none
      else some { st with files := binPath :: st.files }
    | none => some st
  else some st

/-- Lines 134–162 of the `try` block, from the point where the archive has
been fetched to disk: extract, delete the archive, check for the binary,
set its permission bit; any raise is caught by the `except` of line 160. -/
def afterDownload (e : MadoEnv) (st : MadoSt) : Except Unit Bool × MadoSt :=
  match extractStep e st with
  | none => (Except.ok false, { st with logs := st.logs ++ [msgFailed] })
  | some st =>
    if e.unlinkErr then (Except.ok false, { st with logs := st.logs ++ [msgFailed] })
    else
      let st := { st with files := st.files.filter (fun p => p != archivePath e) }
      if binPath ∈ st.files then
        if e.chmodErr then
          (Except.ok false, { st with logs := st.logs ++ [msgFailed] })
        else (Except.ok true, st)
      else (Except.ok false, { st with logs := st.logs ++ [msgNotFound] })

/-- `_ensure_mado()` (lines 99–162).  The `mkdir` of line 128 sits before
the `try` of line 130, so an error there escapes; every error raised from
line 131 onward is caught by the `except` of line 160, logged, and turned
into a `False` return. -/
def ensureMado (e : MadoEnv) (st : MadoSt) : Except Unit Bool × MadoSt :=
  if binPath ∈ st.files then (Except.ok true, st)
  else
    let st := { st with logs := st.logs ++ [msgDownloading] }
    if e.mkdirErr then (Except.error (), st)
    else
      let st := { st with downloads := st.downloads + 1 }
      if e.downloadErr then (Except.ok false, { st with logs := st.logs ++ [msgFailed] })
      else afterDownload e { st with files := archivePath e :: st.files }

/-! ### `discover_tools` (benchmark_cold_start.py lines 175–193)

A tool descriptor carries the fields of a `TOOLS` entry; the availability
probe `tool["check"]()` is a closure over the current environment, so its
outcome is embedded as the Boolean it returns in that environment.  The
`available` dict is an association list with Python-dict assignment
semantics (`dinsert`); the function also returns the status lines printed. -/

structure ToolDesc where
  cmd : String
  category : String
  probeOk : Bool
  checkMsg : String
deriving DecidableEq

/-- Python dict assignment `d[k] = v`: replace in place, or append. -/
def dinsert (l : List (String × ToolDesc)) (k : String) (v : ToolDesc) :
    List (String × ToolDesc) :=
  match l with
  | [] => [(k, v)]
  | (k2, v2) :: rest => if k2 = k then (k, v) :: rest else (k2, v2) :: dinsert rest k v

/-- `name in TOOLS` / `TOOLS[name]` lookup. -/
def lookupTool (tools : List (String × ToolDesc)) (n : String) : Option ToolDesc :=
  ((tools.find? (fun p => p.1 == n))).map (fun p => p.2)

def unknownMsg (n : String) : String := "⚠️  Unknown tool: " ++ n
def foundMsg (n : String) (t : ToolDesc) : String :=
  "✅ Found " ++ n ++ " (" ++ t.category ++ ")"
def notAvailMsg (n : String) (t : ToolDesc) : String :=
  "⚠️  " ++ n ++ " not available: " ++ t.checkMsg

/-- The loop of lines 181–191 over `tool_names`. -/
def discoverLoop (tools : List (String × ToolDesc)) :
    List String → List (String × ToolDesc) × List String →
      List (String × ToolDesc) × List String
  | [], acc => acc
  | n :: rest, (avail, logs) =>
    match lookupTool tools n with
    | none => discoverLoop tools rest (avail, logs ++ [unknownMsg n])
    | some t =>
      if t.probeOk then discoverLoop tools rest (dinsert avail n t, logs ++ [foundMsg n t])
      else discoverLoop tools rest (avail, logs ++ [notAvailMsg n t])

/-- `tool_names = selected if selected else list(TOOLS.keys())` (line 179):
`None` and the empty list are both falsy. -/
def effectiveNames (tools : List (String × ToolDesc)) (selected : Option (List String)) :
    List String :=
  match selected with
  | some l => if l.isEmpty then (tools).map (fun p => p.1) else l
  | none => (tools).map (fun p => p.1)

/-- `discover_tools(selected)` (lines 175–193): the `available` dict and the
printed status lines. -/
def discoverTools (tools : List (String × ToolDesc)) (selected : Option (List String)) :
    List (String × ToolDesc) × List String :=
  discoverLoop tools (effectiveNames tools selected) ([], [])

/-! ### Facts about the decimal formatter -/

theorem rne_bound (q : ℚ) : |((rne q : ℤ) : ℚ) - q| ≤ 1/2 := by
  have hfl : ((⌊q⌋ : ℤ) : ℚ) ≤ q := Int.floor_le q
  have hfu : q < ((⌊q⌋ : ℤ) : ℚ) + 1 := Int.lt_floor_add_one q
  simp only [rne]
  split_ifs with hlt hgt _ <;> rw [abs_le] <;> push_cast <;> constructor <;> linarith

theorem digitChar_isDigit {d : Nat} (h : d < 10) : (digitChar d).isDigit = true := by
  interval_cases d <;> rfl

theorem natReprAux_digits :
    ∀ (fuel n : Nat), ∀ c ∈ natReprAux fuel n, c.isDigit = true := by
  intro fuel
  induction fuel with
  | zero => intro n c hc; simp [natReprAux] at hc
  | succ f ih =>
    intro n c hc
    cases n with
    | zero => simp [natReprAux] at hc
    | succ m =>
      simp only [natReprAux, List.mem_append, List.mem_singleton] at hc
      rcases hc with hc | hc
      · exact ih _ c hc
      · subst hc; exact digitChar_isDigit (Nat.mod_lt _ (by omega))

theorem natRepr_digits (n : Nat) : ∀ c ∈ natRepr n, c.isDigit = true := by
  intro c hc
  unfold natRepr at hc
  split at hc
  · simp at hc; subst hc; rfl
  · exact natReprAux_digits _ _ c hc

theorem natRepr_ne_nil (n : Nat) : natRepr n ≠ [] := by
  unfold natRepr
  split
  · simp
  · next h =>
    cases n with
    | zero => exact absurd rfl h
    | succ m => simp [natReprAux]

theorem padTo_length (d : Nat) (s : List Char) : d + 1 ≤ (padTo d s).length ∨ padTo d s = s := by
  unfold padTo
  split
  · left; simp only [List.length_append, List.length_replicate]; omega
  · right; rfl

theorem padTo_le (d : Nat) {s : List Char} (h : s ≠ []) : d + 1 ≤ (padTo d s).length := by
  have hone : 1 ≤ s.length := by
    cases s with
    | nil => exact absurd rfl h
    | cons a l => simp
  unfold padTo
  split
  · simp only [List.length_append, List.length_replicate]; omega
  · next hlen => omega

theorem padTo_digits (d : Nat) (s : List Char) (h : ∀ c ∈ s, c.isDigit = true) :
    ∀ c ∈ padTo d s, c.isDigit = true := by
  intro c hc
  unfold padTo at hc
  split at hc
  · rcases List.mem_append.mp hc with hc | hc
    · rw [List.eq_of_mem_replicate hc]; rfl
    · exact h c hc
  · exact h c hc

/-- With no digits requested after the point, the fixed formatter is exactly
the integer rendering of the rounded value. -/
theorem fmtFixed_zero (q : ℚ) : fmtFixed 0 q = intRepr (rne q) := by
  have h1 : 1 ≤ (natRepr (rne q).natAbs).length := by
    cases h : natRepr (rne q).natAbs with
    | nil => exact absurd h (natRepr_ne_nil _)
    | cons a l => simp
  simp only [fmtFixed, pow_zero, mul_one, if_pos rfl]
  rw [show padTo 0 (natRepr (rne q).natAbs) = natRepr (rne q).natAbs by
    unfold padTo; rw [if_neg (by omega)]]
  rfl

/-- Splitting a padded digit string at `d` digits from the right. -/
theorem splitShape (s : List Char) (d : Nat) (hlen : d + 1 ≤ s.length)
    (hdig : ∀ c ∈ s, c.isDigit = true) (sign : List Char) :
    ∃ pre suf, sign ++ s.take (s.length - d) ++ ['.'] ++ s.drop (s.length - d)
        = pre ++ '.' :: suf ∧ suf.length = d ∧ ∀ c ∈ suf, c.isDigit = true := by
  refine ⟨sign ++ s.take (s.length - d), s.drop (s.length - d), ?_, ?_, ?_⟩
  · simp [List.append_assoc]
  · rw [List.length_drop]; omega
  · intro c hc; exact hdig c (List.drop_subset _ _ hc)

/-- With `0 < d` digits requested, the rendering splits as an optional sign
and integer part, a point, and exactly `d` digit characters. -/
theorem fmtFixed_shape (d : Nat) (hd : 0 < d) (q : ℚ) :
    ∃ pre suf, fmtFixed d q = pre ++ '.' :: suf
      ∧ suf.length = d ∧ ∀ c ∈ suf, c.isDigit = true := by
  obtain ⟨pre, suf, heq, h1, h2⟩ :=
    splitShape (padTo d (natRepr (rne (q * (10 : ℚ) ^ d)).natAbs)) d
      (padTo_le d (natRepr_ne_nil _))
      (padTo_digits d _ (natRepr_digits _))
      (if rne (q * (10 : ℚ) ^ d) < 0 then ['-'] else [])
  refine ⟨pre, suf, ?_, h1, h2⟩
  rw [← heq]
  simp only [fmtFixed]
  rw [if_neg (show ¬ d = 0 by omega)]

theorem intRepr_chars (n : ℤ) : ∀ c ∈ intRepr n, c = '-' ∨ c.isDigit = true := by
  intro c hc
  unfold intRepr at hc
  rcases List.mem_append.mp hc with hc | hc
  · left
    split at hc <;> simp at hc
    exact hc
  · right; exact natRepr_digits _ c hc

theorem intRepr_no_dot (n : ℤ) : ∀ c ∈ intRepr n, c ≠ '.' := by
  intro c hc
  rcases intRepr_chars n c hc with h | h <;> intro he <;> subst he
  · simp at h
  · simp [Char.isDigit] at h

/-! ### Order instances for the sort comparisons -/

instance : IsTotal ResultRecord meanLE := ⟨fun a b => le_total a.mean b.mean⟩

instance : IsTrans ResultRecord meanLE :=
  ⟨fun _ _ _ h1 h2 => le_trans h1 h2⟩

instance : IsTotal (String × ℚ) timeLE := ⟨fun a b => le_total a.2 b.2⟩

instance : IsTrans (String × ℚ) timeLE :=
  ⟨fun _ _ _ h1 h2 => le_trans h1 h2⟩

/-! ### Facts about the acquisition model -/

/-- Extraction either leaves the state alone (no matching entry) or adds
exactly the canonical binary path. -/
theorem extractStep_cases {e : MadoEnv} {s t : MadoSt} (h : extractStep e s = some t) :
    t = s ∨ t = { s with files := binPath :: s.files } := by
  unfold extractStep at h
  split at h
  · split at h
    · split at h
      · exact absurd h (by simp)
      · right; exact (Option.some.injEq _ _ ▸ h).symm
    · left; exact (Option.some.injEq _ _ ▸ h).symm
  · split at h
    · split at h
      · split at h
        · exact absurd h (by simp)
        · right; exact (Option.some.injEq _ _ ▸ h).symm
      · left; exact (Option.some.injEq _ _ ▸ h).symm
    · left; exact (Option.some.injEq _ _ ▸ h).symm

/-- Extraction never raises when the extraction primitive does not raise. -/
theorem extractStep_total {e : MadoEnv} (he : e.extractErr = false) (s : MadoSt) :
    ∃ t, extractStep e s = some t := by
  unfold extractStep
  split
  · cases htf : tarFind e.tarMembers <;> simp [he]
  · split
    · cases hzf : zipFind e.zipNames <;> simp [he]
    · exact ⟨s, rfl⟩

/-! ### Facts about the discovery loop -/

theorem mem_dinsert_self (l : List (String × ToolDesc)) (k : String) (v : ToolDesc) :
    (k, v) ∈ dinsert l k v := by
  induction l with
  | nil => simp [dinsert]
  | cons p rest ih =>
    obtain ⟨k2, v2⟩ := p
    unfold dinsert
    split
    · exact List.mem_cons_self _ _
    · exact List.mem_cons_of_mem _ ih

theorem mem_of_mem_dinsert {l : List (String × ToolDesc)} {k : String} {v : ToolDesc}
    {a : String × ToolDesc} (h : a ∈ dinsert l k v) : a = (k, v) ∨ a ∈ l := by
  induction l with
  | nil => simpa [dinsert] using h
  | cons p rest ih =>
    obtain ⟨k2, v2⟩ := p
    unfold dinsert at h
    split at h
    · rcases List.mem_cons.mp h with h | h
      · exact Or.inl h
      · exact Or.inr (List.mem_cons_of_mem _ h)
    · rcases List.mem_cons.mp h with h | h
      · exact Or.inr (by rw [h]; exact List.mem_cons_self _ _)
      · rcases ih h with h | h
        · exact Or.inl h
        · exact Or.inr (List.mem_cons_of_mem _ h)

theorem mem_dinsert_of_mem {l : List (String × ToolDesc)} {k : String} {v : ToolDesc}
    {a : String × ToolDesc} (hcons : a.1 = k → a.2 = v) (h : a ∈ l) :
    a ∈ dinsert l k v := by
  induction l with
  | nil => simp at h
  | cons p rest ih =>
    obtain ⟨k2, v2⟩ := p
    unfold dinsert
    split
    · next heq =>
      rcases List.mem_cons.mp h with h | h
      · have h2 : a.2 = v := hcons (by rw [h, heq])
        have h1 : a.1 = k := by rw [h, heq]
        have : a = (k, v) := Prod.ext h1 h2
        rw [this]
        exact List.mem_cons_self _ _
      · exact List.mem_cons_of_mem _ h
    · rcases List.mem_cons.mp h with h | h
      · rw [h]; exact List.mem_cons_self _ _
      · exact List.mem_cons_of_mem _ (ih h)

theorem discoverLoop_cons_none {tools : List (String × ToolDesc)} {n2 : String}
    (rest : List String) (avail : List (String × ToolDesc)) (logs : List String)
    (hlk : lookupTool tools n2 = none) :
    discoverLoop tools (n2 :: rest) (avail, logs)
      = discoverLoop tools rest (avail, logs ++ [unknownMsg n2]) := by
  simp only [discoverLoop, hlk]

theorem discoverLoop_cons_true {tools : List (String × ToolDesc)} {n2 : String}
    {t2 : ToolDesc} (rest : List String) (avail : List (String × ToolDesc))
    (logs : List String) (hlk : lookupTool tools n2 = some t2) (hpr : t2.probeOk = true) :
    discoverLoop tools (n2 :: rest) (avail, logs)
      = discoverLoop tools rest (dinsert avail n2 t2, logs ++ [foundMsg n2 t2]) := by
  simp only [discoverLoop, hlk, hpr, if_pos]

theorem discoverLoop_cons_false {tools : List (String × ToolDesc)} {n2 : String}
    {t2 : ToolDesc} (rest : List String) (avail : List (String × ToolDesc))
    (logs : List String) (hlk : lookupTool tools n2 = some t2) (hpr : t2.probeOk = false) :
    discoverLoop tools (n2 :: rest) (avail, logs)
      = discoverLoop tools rest (avail, logs ++ [notAvailMsg n2 t2]) := by
  simp only [discoverLoop, hlk, hpr]
  rw [if_neg (by simp)]

/-- Invariant of the discovery loop: an entry is in the final dict iff it
is a registry entry whose probe succeeded and whose name was processed, or
it was in the accumulator already. -/
theorem discoverLoop_mem (tools : List (String × ToolDesc)) (names : List String)
    (avail : List (String × ToolDesc)) (logs : List String) (n : String) (t : ToolDesc)
    (hinv : ∀ p ∈ avail, lookupTool tools p.1 = some p.2 ∧ p.2.probeOk = true) :
    (n, t) ∈ (discoverLoop tools names (avail, logs)).1
      ↔ (lookupTool tools n = some t ∧ t.probeOk = true ∧ (n ∈ names ∨ (n, t) ∈ avail)) := by
  induction names generalizing avail logs with
  | nil =>
    simp only [discoverLoop, List.not_mem_nil, false_or]
    constructor
    · intro hm
      obtain ⟨h1, h2⟩ := hinv _ hm
      exact ⟨h1, h2, hm⟩
    · intro ⟨_, _, hm⟩
      exact hm
  | cons n2 rest ih =>
    cases hlk : lookupTool tools n2 with
    | none =>
      rw [discoverLoop_cons_none rest avail logs hlk]
      rw [ih avail (logs ++ [unknownMsg n2]) hinv]
      constructor
      · rintro ⟨h1, h2, h3⟩
        refine ⟨h1, h2, ?_⟩
        rcases h3 with h3 | h3
        · exact Or.inl (List.mem_cons_of_mem _ h3)
        · exact Or.inr h3
      · rintro ⟨h1, h2, h3⟩
        refine ⟨h1, h2, ?_⟩
        rcases h3 with h3 | h3
        · rcases List.mem_cons.mp h3 with h3 | h3
          · subst h3; rw [hlk] at h1; exact absurd h1 (by simp)
          · exact Or.inl h3
        · exact Or.inr h3
    | some t2 =>
      cases hpr : t2.probeOk with
      | true =>
        have hinv2 : ∀ p ∈ dinsert avail n2 t2,
            lookupTool tools p.1 = some p.2 ∧ p.2.probeOk = true := by
          intro p hp
          rcases mem_of_mem_dinsert hp with hp | hp
          · rw [hp]; exact ⟨hlk, hpr⟩
          · exact hinv p hp
        rw [discoverLoop_cons_true rest avail logs hlk hpr]
        rw [ih (dinsert avail n2 t2) (logs ++ [foundMsg n2 t2]) hinv2]
        constructor
        · rintro ⟨h1, h2, h3⟩
          refine ⟨h1, h2, ?_⟩
          rcases h3 with h3 | h3
          · exact Or.inl (List.mem_cons_of_mem _ h3)
          · rcases mem_of_mem_dinsert h3 with h3 | h3
            · have : n = n2 := congrArg Prod.fst h3
              exact Or.inl (this ▸ List.mem_cons_self _ _)
            · exact Or.inr h3
        · rintro ⟨h1, h2, h3⟩
          refine ⟨h1, h2, ?_⟩
          rcases h3 with h3 | h3
          · rcases List.mem_cons.mp h3 with h3 | h3
            · subst h3
              rw [hlk] at h1
              have ht : t = t2 := by
                have := Option.some.inj h1
                exact this.symm
              exact Or.inr (ht ▸ mem_dinsert_self avail n t2)
            · exact Or.inl h3
          · exact Or.inr (mem_dinsert_of_mem
              (fun hk => by
                obtain ⟨h1a, _⟩ := hinv _ h3
                rw [hk, hlk] at h1a
                exact (Option.some.inj h1a).symm) h3)
      | false =>
        rw [discoverLoop_cons_false rest avail logs hlk hpr]
        rw [ih avail (logs ++ [notAvailMsg n2 t2]) hinv]
        constructor
        · rintro ⟨h1, h2, h3⟩
          refine ⟨h1, h2, ?_⟩
          rcases h3 with h3 | h3
          · exact Or.inl (List.mem_cons_of_mem _ h3)
          · exact Or.inr h3
        · rintro ⟨h1, h2, h3⟩
          refine ⟨h1, h2, ?_⟩
          rcases h3 with h3 | h3
          · rcases List.mem_cons.mp h3 with h3 | h3
            · subst h3
              rw [hlk] at h1
              have ht : t = t2 := (Option.some.inj h1).symm
              rw [ht, hpr] at h2
              exact absurd h2 (by simp)
            · exact Or.inl h3
          · exact Or.inr h3

/-- The printed lines only grow. -/
theorem discoverLoop_logs_mono (tools : List (String × ToolDesc)) (names : List String)
    (avail : List (String × ToolDesc)) (logs : List String) (x : String) (hx : x ∈ logs) :
    x ∈ (discoverLoop tools names (avail, logs)).2 := by
  induction names generalizing avail logs with
  | nil => simpa [discoverLoop] using hx
  | cons n2 rest ih =>
    cases hlk : lookupTool tools n2 with
    | none =>
      rw [discoverLoop_cons_none rest avail logs hlk]
      exact ih avail _ (List.mem_append_left _ hx)
    | some t2 =>
      cases hpr : t2.probeOk with
      | true =>
        rw [discoverLoop_cons_true rest avail logs hlk hpr]
        exact ih (dinsert avail n2 t2) _ (List.mem_append_left _ hx)
      | false =>
        rw [discoverLoop_cons_false rest avail logs hlk hpr]
        exact ih avail _ (List.mem_append_left _ hx)

/-- A requested name missing from the registry is warned about. -/
theorem discoverLoop_warns (tools : List (String × ToolDesc)) (names : List String)
    (avail : List (String × ToolDesc)) (logs : List String) (n : String)
    (hn : n ∈ names) (hlk : lookupTool tools n = none) :
    unknownMsg n ∈ (discoverLoop tools names (avail, logs)).2 := by
  induction names generalizing avail logs with
  | nil => simp at hn
  | cons n2 rest ih =>
    rcases List.mem_cons.mp hn with hn2 | hn2
    · subst hn2
      rw [discoverLoop_cons_none rest avail logs hlk]
      exact discoverLoop_logs_mono tools rest avail _ _
        (List.mem_append_right _ (List.mem_singleton.mpr rfl))
    · cases hlk2 : lookupTool tools n2 with
      | none =>
        rw [discoverLoop_cons_none rest avail logs hlk2]
        exact ih avail _ hn2
      | some t2 =>
        cases hpr : t2.probeOk with
        | true =>
          rw [discoverLoop_cons_true rest avail logs hlk2 hpr]
          exact ih (dinsert avail n2 t2) _ hn2
        | false =>
          rw [discoverLoop_cons_false rest avail logs hlk2 hpr]
          exact ih avail _ hn2

/-! ### Claim theorems -/

/-- A Linux environment whose archive holds the binary and in which no
primitive raises. -/
def envLin : MadoEnv :=
  ⟨"Linux", "x86_64", false, false, ["mado-Linux-gnu-x86_64/mado"], [], false, false, false⟩

/-- Claim C1, counterexample: with the cache file absent and the creation of
the cache directory (line 128) raising a filesystem error, `_ensure_mado`
propagates the exception to its caller instead of catching it — the
`mkdir` sits before the `try` block, so not every filesystem error during
acquisition is caught. -/
theorem c1_counterexample :
    (ensureMado { envLin with mkdirErr := true } ⟨[], 0, []⟩).1 = Except.error () := by
  decide

/-- From the post-fetch point on, either the call ends in success or it
ends in a caught failure with a diagnostic printed. -/
theorem afterDownload_spec (e : MadoEnv) (st : MadoSt) :
    (afterDownload e st).1 = Except.ok true
  ∨ ((afterDownload e st).1 = Except.ok false
      ∧ st.logs.length < (afterDownload e st).2.logs.length) := by
  unfold afterDownload
  cases hex : extractStep e st with
  | none =>
    right
    exact ⟨rfl, by simp⟩
  | some st2 =>
    have hlg : st2.logs = st.logs := by
      rcases extractStep_cases hex with hc | hc <;> rw [hc]
    dsimp only
    split_ifs with h1 h2 h3
    · right; exact ⟨rfl, by simp [hlg]⟩
    · right; exact ⟨rfl, by simp [hlg]⟩
    · left; rfl
    · right; exact ⟨rfl, by simp [hlg]⟩

/-- Claim C1 (amended): provided the creation of the cache directory does
not raise, every failure of the acquisition — network error during
download, missing-entry condition, extraction, deletion or permission
error — is caught: the function returns normally, and whenever it returns
failure a diagnostic line has been printed. -/
theorem c1_errors_caught (e : MadoEnv) (st : MadoSt) (h : e.mkdirErr = false) :
    (ensureMado e st).1 = Except.ok true
  ∨ ((ensureMado e st).1 = Except.ok false
      ∧ st.logs.length < (ensureMado e st).2.logs.length) := by
  unfold ensureMado
  by_cases hb : binPath ∈ st.files
  · rw [if_pos hb]; left; rfl
  · rw [if_neg hb]
    dsimp only
    rw [if_neg (by simp [h])]
    cases hdl : e.downloadErr with
    | true =>
      rw [if_pos rfl]
      right
      exact ⟨rfl, by simp⟩
    | false =>
      rw [if_neg (by simp)]
      rcases (afterDownload_spec e ⟨archivePath e :: st.files,
          st.downloads + 1, st.logs ++ [msgDownloading]⟩) with
        hok | ⟨hf, hl⟩
      · left; exact hok
      · right
        refine ⟨hf, lt_of_le_of_lt ?_ hl⟩
        simp

/-- Claim C1, witness. -/
theorem c1_errors_caught_witness :
    (ensureMado { envLin with downloadErr := true } ⟨[], 0, []⟩).1 = Except.ok true
  ∨ ((ensureMado { envLin with downloadErr := true } ⟨[], 0, []⟩).1 = Except.ok false
      ∧ ([] : List String).length
          < (ensureMado { envLin with downloadErr := true } ⟨[], 0, []⟩).2.logs.length) :=
  c1_errors_caught { envLin with downloadErr := true } ⟨[], 0, []⟩ rfl

/-- Claim C3, counterexample: when the archive downloads but the extraction
raises, control jumps from line 140 straight to the `except` of line 160,
skipping the `unlink` of line 151 — the temporary archive is still on disk
when the function returns failure. -/
theorem c3_counterexample :
    (ensureMado { envLin with extractErr := true } ⟨[], 0, []⟩).1 = Except.ok false
  ∧ archivePath { envLin with extractErr := true }
      ∈ (ensureMado { envLin with extractErr := true } ⟨[], 0, []⟩).2.files := by
  constructor <;> decide

/-- From the post-fetch point on, if neither extraction nor deletion raises
then the archive is no longer recorded on return. -/
theorem afterDownload_no_archive (e : MadoEnv) (st : MadoSt)
    (h4 : e.extractErr = false) (h5 : e.unlinkErr = false) :
    archivePath e ∉ (afterDownload e st).2.files := by
  unfold afterDownload
  obtain ⟨st2, hex⟩ := extractStep_total h4 st
  rw [hex]
  dsimp only
  rw [if_neg (by simp [h5])]
  split_ifs <;> simp [List.mem_filter]

/-- Claim C3 (amended): on every attempt that downloads an archive and in
which neither the download, the extraction, nor the deletion itself raises,
the temporary archive is gone when the function returns — on the success
path, on the missing-entry path, and on the permission-error path alike.
When download or extraction raises, the deletion is skipped. -/
theorem c3_archive_deleted (e : MadoEnv) (st : MadoSt)
    (h1 : binPath ∉ st.files) (h2 : e.mkdirErr = false) (h3 : e.downloadErr = false)
    (h4 : e.extractErr = false) (h5 : e.unlinkErr = false) :
    archivePath e ∉ (ensureMado e st).2.files := by
  unfold ensureMado
  rw [if_neg h1]
  dsimp only
  rw [if_neg (by simp [h2])]
  rw [if_neg (by simp [h3])]
  exact afterDownload_no_archive e _ h4 h5

/-- Claim C3, witness. -/
theorem c3_archive_deleted_witness :
    archivePath envLin ∉ (ensureMado envLin ⟨[], 0, []⟩).2.files :=
  c3_archive_deleted envLin ⟨[], 0, []⟩ (by decide) rfl rfl rfl rfl

/-- Claim C5: if the canonical cache file already exists, `_ensure_mado`
returns `True` immediately with the state untouched — no network fetch, no
file-system mutation, no output — and a second call does the same. -/
theorem c5_idempotent (e : MadoEnv) (st : MadoSt) (hb : binPath ∈ st.files) :
    ensureMado e st = (Except.ok true, st)
  ∧ ensureMado e (ensureMado e st).2 = (Except.ok true, st) := by
  have h1 : ensureMado e st = (Except.ok true, st) := by
    unfold ensureMado; rw [if_pos hb]
  refine ⟨h1, ?_⟩
  rw [h1]
  exact h1

/-- Claim C5, witness. -/
theorem c5_idempotent_witness :
    ensureMado envLin ⟨[binPath], 2, []⟩ = (Except.ok true, ⟨[binPath], 2, []⟩)
  ∧ ensureMado envLin (ensureMado envLin ⟨[binPath], 2, []⟩).2
      = (Except.ok true, ⟨[binPath], 2, []⟩) :=
  c5_idempotent envLin ⟨[binPath], 2, []⟩ (by decide)

/-- Claim C4, counterexample: a record with mean 0.05 s renders its mean
cell as "50 ms" — two significant digits, not three.  The sub-second format
is `f"{mean_s * 1000:.0f} ms"`, a whole number of milliseconds, which only
happens to have three digits for means in [0.1 s, 1 s). -/
theorem c4_counterexample :
    meanStr (1/20) = ("50 ms").toList
  ∧ ((meanStr (1/20)).filter Char.isDigit).length = 2 := by
  constructor <;> with_unfolding_all decide

/-- Claim C4 (amended): the mean cell shows the mean as a whole number of
milliseconds — the nearest integer to `mean * 1000`, with no decimal
point in its digits — when the mean is under one second, and as seconds
with exactly one digit after the decimal point (the rendered value within
0.05 of the mean) otherwise. -/
theorem c4_mean_cell (q : ℚ) :
    (q < 1 → meanStr q = intRepr (rne (q * 1000)) ++ (" ms").toList
      ∧ |((rne (q * 1000) : ℤ) : ℚ) - q * 1000| ≤ 1/2
      ∧ ∀ c ∈ intRepr (rne (q * 1000)), c ≠ '.')
  ∧ (1 ≤ q → ∃ pre suf, meanStr q = pre ++ '.' :: suf ++ (" s").toList
      ∧ suf.length = 1 ∧ (∀ c ∈ suf, c.isDigit = true)
      ∧ |((rne (q * 10) : ℤ) : ℚ) / 10 - q| ≤ 1/20) := by
  constructor
  · intro hq
    refine ⟨?_, rne_bound (q * 1000), intRepr_no_dot _⟩
    rw [meanStr, if_pos hq, fmtFixed_zero]
  · intro hq
    obtain ⟨pre, suf, heq, h1, h2⟩ := fmtFixed_shape 1 (by omega) q
    refine ⟨pre, suf, ?_, h1, h2, ?_⟩
    · rw [meanStr, if_neg (by linarith), heq]
    · have hb := rne_bound (q * 10)
      rw [show ((rne (q * 10) : ℤ) : ℚ) / 10 - q = (((rne (q * 10) : ℤ) : ℚ) - q * 10) / 10 by
        ring]
      rw [abs_div]
      rw [show |(10 : ℚ)| = 10 by norm_num]
      linarith

/-- Claim C4, witness. -/
theorem c4_mean_cell_witness :
    meanStr (1/20) = intRepr (rne ((1/20 : ℚ) * 1000)) ++ (" ms").toList
  ∧ |((rne ((1/20 : ℚ) * 1000) : ℤ) : ℚ) - (1/20 : ℚ) * 1000| ≤ 1/2
  ∧ ∀ c ∈ intRepr (rne ((1/20 : ℚ) * 1000)), c ≠ '.' :=
  (c4_mean_cell (1/20)).1 (by with_unfolding_all decide)

/-- Claim C8, counterexample: with a baseline record present whose mean is
negative (here −0.05 s) and a row mean of 0.05 s, the ratio is −1 < 0.1, so
the claim prescribes the two-decimal rendering "-1.00x"; the code instead
renders the placeholder "-" because its guard requires a positive baseline
mean, not mere presence of the baseline record. -/
theorem c8_counterexample :
    vsStr (some (-(1/20))) (1/20) = ("-").toList
  ∧ fmtFixed 2 ((1/20 : ℚ) / (-(1/20))) ++ ['x'] = ("-1.00x").toList := by
  constructor <;> with_unfolding_all decide

/-- Claim C8 (amended): when the baseline record is present with positive
mean, the ratio cell is the row mean divided by the baseline mean, rendered
with two digits after the decimal point when the ratio is under 0.1 and one
digit otherwise, always suffixed "x"; when the baseline record is absent
the cell is the placeholder "-".  The concrete instances of the claim hold:
baseline 0.05 s with row mean 0.003 s renders "0.06x", and with row mean
0.08 s renders "1.6x". -/
theorem c8_ratio_cell :
    (∀ m : ℚ, vsStr none m = ("-").toList)
  ∧ (∀ b m : ℚ, 0 < b → m / b < 1/10 →
      vsStr (some b) m = fmtFixed 2 (m / b) ++ ['x']
        ∧ ∃ pre suf, vsStr (some b) m = pre ++ '.' :: suf ++ ['x']
            ∧ suf.length = 2 ∧ ∀ c ∈ suf, c.isDigit = true)
  ∧ (∀ b m : ℚ, 0 < b → 1/10 ≤ m / b →
      vsStr (some b) m = fmtFixed 1 (m / b) ++ ['x']
        ∧ ∃ pre suf, vsStr (some b) m = pre ++ '.' :: suf ++ ['x']
            ∧ suf.length = 1 ∧ ∀ c ∈ suf, c.isDigit = true)
  ∧ vsStr (some (1/20)) (3/1000) = ("0.06x").toList
  ∧ vsStr (some (1/20)) (2/25) = ("1.6x").toList := by
  refine ⟨fun m => rfl, ?_, ?_, ?_, ?_⟩
  · intro b m hb hr
    have hv : vsStr (some b) m = fmtFixed 2 (m / b) ++ ['x'] := by
      rw [vsStr]
      dsimp only
      rw [if_pos hb, if_pos hr]
    refine ⟨hv, ?_⟩
    obtain ⟨pre, suf, heq, h1, h2⟩ := fmtFixed_shape 2 (by omega) (m / b)
    exact ⟨pre, suf, by rw [hv, heq], h1, h2⟩
  · intro b m hb hr
    have hv : vsStr (some b) m = fmtFixed 1 (m / b) ++ ['x'] := by
      rw [vsStr]
      dsimp only
      rw [if_pos hb, if_neg (by linarith)]
    refine ⟨hv, ?_⟩
    obtain ⟨pre, suf, heq, h1, h2⟩ := fmtFixed_shape 1 (by omega) (m / b)
    exact ⟨pre, suf, by rw [hv, heq], h1, h2⟩
  · with_unfolding_all decide
  · with_unfolding_all decide

/-- Claim C8, witness. -/
theorem c8_ratio_cell_witness :
    vsStr (some (1/20)) (3/1000) = fmtFixed 2 ((3/1000 : ℚ) / (1/20)) ++ ['x']
      ∧ ∃ pre suf, vsStr (some (1/20)) (3/1000) = pre ++ '.' :: suf ++ ['x']
          ∧ suf.length = 2 ∧ ∀ c ∈ suf, c.isDigit = true :=
  c8_ratio_cell.2.1 (1/20) (3/1000)
    (by with_unfolding_all decide) (by with_unfolding_all decide)

/-- Claim C9: the ratio computation is guarded against a non-positive
baseline: when the baseline mean is present but zero or negative, the ratio
cell is the placeholder "-", the same cell as when the baseline record is
absent, and a whole row renders identically to the absent-baseline row; so
a whole table built from records whose rumdl entry has non-positive mean
carries the placeholder in every row. -/
theorem c9_no_div_by_zero (b : ℚ) (hb : b ≤ 0) :
    (∀ m : ℚ, vsStr (some b) m = ("-").toList ∧ vsStr (some b) m = vsStr none m)
  ∧ (∀ r : ResultRecord, buildRow (some b) r = buildRow none r)
  ∧ (∀ records : List ResultRecord,
      findRumdlMean (sortedResults records) = some b →
        buildRows records = ((sortedResults records)).map (buildRow none)) := by
  have hv : ∀ m : ℚ, vsStr (some b) m = ("-").toList := by
    intro m
    rw [vsStr]
    dsimp only
    rw [if_neg (by linarith)]
  have hrow : ∀ r : ResultRecord, buildRow (some b) r = buildRow none r := by
    intro r
    rw [buildRow, buildRow, hv r.mean]
    rfl
  refine ⟨fun m => ⟨hv m, (hv m).trans rfl⟩, hrow, ?_⟩
  intro records hfind
  rw [buildRows]
  rw [hfind]
  exact List.map_congr_left (fun r _ => hrow r)

/-- Claim C9, witness. -/
theorem c9_no_div_by_zero_witness :
    (vsStr (some 0) (1/2) = ("-").toList ∧ vsStr (some 0) (1/2) = vsStr none (1/2))
  ∧ buildRow (some 0) ⟨"mado", 1/2⟩ = buildRow none ⟨"mado", 1/2⟩
  ∧ buildRows [⟨"rumdl", 0⟩, ⟨"mado", 1/2⟩]
      = ((sortedResults [⟨"rumdl", 0⟩, ⟨"mado", 1/2⟩])).map (buildRow none) :=
  ⟨(c9_no_div_by_zero 0 (le_refl 0)).1 (1/2),
   (c9_no_div_by_zero 0 (le_refl 0)).2.1 ⟨"mado", 1/2⟩,
   (c9_no_div_by_zero 0 (le_refl 0)).2.2 [⟨"rumdl", 0⟩, ⟨"mado", 1/2⟩]
     (by with_unfolding_all decide)⟩

/-- Claim C6: for every registry and every requested selection, discovery
returns exactly the requested (or, with no selection, all) registry entries
whose probe returns true; a requested name absent from the registry is
warned about, never appears in the result, and never by itself aborts
discovery (the function still returns normally with the remaining tools). -/
theorem c6_discover (tools : List (String × ToolDesc)) (sel : Option (List String))
    (n : String) (t : ToolDesc) :
    ((n, t) ∈ (discoverTools tools sel).1
      ↔ (n ∈ effectiveNames tools sel ∧ lookupTool tools n = some t ∧ t.probeOk = true))
  ∧ (n ∈ effectiveNames tools sel → lookupTool tools n = none →
      unknownMsg n ∈ (discoverTools tools sel).2
        ∧ ∀ u : ToolDesc, (n, u) ∉ (discoverTools tools sel).1) := by
  have hmem : ∀ u : ToolDesc, ((n, u) ∈ (discoverTools tools sel).1
      ↔ (lookupTool tools n = some u ∧ u.probeOk = true
          ∧ (n ∈ effectiveNames tools sel ∨ (n, u) ∈ ([] : List (String × ToolDesc))))) :=
    fun u => discoverLoop_mem tools (effectiveNames tools sel) [] [] n u (by simp)
  constructor
  · rw [hmem t]
    simp only [List.not_mem_nil, or_false]
    tauto
  · intro hn hnone
    refine ⟨discoverLoop_warns tools _ [] [] n hn hnone, ?_⟩
    intro u hu
    obtain ⟨h1, _, _⟩ := (hmem u).mp hu
    rw [hnone] at h1
    exact absurd h1 (by simp)

/-- Claim C6, witness. -/
theorem c6_discover_witness :
    unknownMsg "zz" ∈ (discoverTools
        [("rumdl", ⟨"c", "lint", true, "m"⟩)] (some ["zz", "rumdl"])).2
  ∧ ∀ u : ToolDesc, ("zz", u) ∉ (discoverTools
        [("rumdl", ⟨"c", "lint", true, "m"⟩)] (some ["zz", "rumdl"])).1 :=
  (c6_discover [("rumdl", ⟨"c", "lint", true, "m"⟩)] (some ["zz", "rumdl"])
      "zz" ⟨"c", "lint", true, "m"⟩).2 (by decide) (by decide)

/-- Claim C7: the chart pipeline sorts the bars ascending by mean time with
a stable sort (any sorted sublist of the input — in particular any run of
ties in engine order — survives as a sublist of the output); the bar for a
mean under one second is labeled as a whole number of milliseconds with no
decimal point, and otherwise as seconds with exactly one digit after the
point.  In particular, records {A: 0.8 s, B: 0.05 s, C: 1.2 s} render in
the order B, A, C with B labeled "50ms" and C labeled "1.2s". -/
theorem c7_chart (records : List ResultRecord) :
    List.Pairwise timeLE (chartSorted records)
  ∧ (∀ c : List (String × ℚ), c.Pairwise timeLE → List.Sublist c (chartPairs records) →
      List.Sublist c (chartSorted records))
  ∧ chartSorted [⟨"A", 4/5⟩, ⟨"B", 1/20⟩, ⟨"C", 6/5⟩]
      = [("B", 50), ("A", 800), ("C", 1200)]
  ∧ barLabel 50 = ("50ms").toList
  ∧ barLabel 1200 = ("1.2s").toList
  ∧ (∀ t : ℚ, t < 1000 →
      barLabel t = intRepr (rne t) ++ ("ms").toList ∧ ∀ c ∈ intRepr (rne t), c ≠ '.')
  ∧ (∀ t : ℚ, 1000 ≤ t → ∃ pre suf, barLabel t = pre ++ '.' :: suf ++ ("s").toList
      ∧ suf.length = 1 ∧ ∀ c ∈ suf, c.isDigit = true) := by
  refine ⟨?_, ?_, ?_, ?_, ?_, ?_, ?_⟩
  · exact List.sorted_insertionSort timeLE _
  · intro c hp hs
    exact List.sublist_insertionSort hp hs
  · with_unfolding_all decide
  · with_unfolding_all decide
  · with_unfolding_all decide
  · intro t ht
    refine ⟨?_, intRepr_no_dot _⟩
    rw [barLabel, if_pos ht, fmtFixed_zero]
  · intro t ht
    obtain ⟨pre, suf, heq, h1, h2⟩ := fmtFixed_shape 1 (by omega) (t / 1000)
    exact ⟨pre, suf, by rw [barLabel, if_neg (by linarith), heq], h1, h2⟩

/-- Claim C7, witness. -/
theorem c7_chart_witness :
    barLabel 50 = intRepr (rne 50) ++ ("ms").toList
      ∧ ∀ c ∈ intRepr (rne 50), c ≠ '.' :=
  (c7_chart []).2.2.2.2.2.1 50 (by with_unfolding_all decide)

/-- Claim C2: for a document in which each date anchor and the table block
occurs exactly once — here expressed by a decomposition into the two date
anchors `v` and `r`, the table block `t`, and surrounding text `A B C D` in
which no anchor pattern matches (also after the date substitutions) — the
synchronizer returns the document with `v`, `r` replaced by the fresh date
stamps and `t` replaced wholesale by the freshly generated table, and every
byte of `A`, `B`, `C`, `D` intact; the fresh table carries one row per
result record. -/
theorem c2_sync_frame (dateStr : List Char) (records : List ResultRecord)
    (A v B r C t D : List Char)
    (h1 : noMatchBelow matchVerified A (v ++ (B ++ (r ++ (C ++ (t ++ D))))) = true)
    (h2 : matchVerified (v ++ (B ++ (r ++ (C ++ (t ++ D))))) = some v.length)
    (h3 : v ≠ [])
    (h4 : noMatchBelow matchVerified (B ++ (r ++ (C ++ (t ++ D)))) [] = true)
    (h5 : noMatchBelow matchLastRun (A ++ (repVerified dateStr ++ B))
        (r ++ (C ++ (t ++ D))) = true)
    (h6 : matchLastRun (r ++ (C ++ (t ++ D))) = some r.length)
    (h7 : r ≠ [])
    (h8 : noMatchBelow matchLastRun (C ++ (t ++ D)) [] = true)
    (h9 : noMatchBelow matchTable
        (A ++ (repVerified dateStr ++ (B ++ (repLastRun dateStr ++ C)))) (t ++ D) = true)
    (h10 : matchTable (t ++ D) = some t.length)
    (h11 : t ≠ [])
    (h12 : noMatchBelow matchTable D [] = true) :
    (updateContent dateStr records (A ++ (v ++ (B ++ (r ++ (C ++ (t ++ D))))))).1
      = A ++ (repVerified dateStr
          ++ (B ++ (repLastRun dateStr ++ (C ++ (newTable records ++ D)))))
  ∧ (buildRows records).length = records.length := by
  constructor
  · have e1 : subVerified dateStr (A ++ (v ++ (B ++ (r ++ (C ++ (t ++ D))))))
        = (A ++ (repVerified dateStr ++ (B ++ (r ++ (C ++ (t ++ D))))), 1) := by
      unfold subVerified
      rw [subn_skip _ h1, subn_match _ h2 h3, subn_of_noMatch _ h4]
    have hassoc1 : A ++ (repVerified dateStr ++ (B ++ (r ++ (C ++ (t ++ D)))))
        = (A ++ (repVerified dateStr ++ B)) ++ (r ++ (C ++ (t ++ D))) := by
      simp [List.append_assoc]
    have e2 : subLastRun dateStr (A ++ (repVerified dateStr ++ (B ++ (r ++ (C ++ (t ++ D))))))
        = ((A ++ (repVerified dateStr ++ B)) ++ (repLastRun dateStr ++ (C ++ (t ++ D))), 1) := by
      unfold subLastRun
      rw [hassoc1, subn_skip _ h5, subn_match _ h6 h7, subn_of_noMatch _ h8]
    have hassoc2 : (A ++ (repVerified dateStr ++ B)) ++ (repLastRun dateStr ++ (C ++ (t ++ D)))
        = (A ++ (repVerified dateStr ++ (B ++ (repLastRun dateStr ++ C)))) ++ (t ++ D) := by
      simp [List.append_assoc]
    have e3 : subTable records
          ((A ++ (repVerified dateStr ++ B)) ++ (repLastRun dateStr ++ (C ++ (t ++ D))))
        = ((A ++ (repVerified dateStr ++ (B ++ (repLastRun dateStr ++ C))))
            ++ (newTable records ++ D), 1) := by
      unfold subTable
      rw [hassoc2, subn_skip _ h9, subn_match _ h10 h11, subn_of_noMatch _ h12]
    show (subTable records (subLastRun dateStr
        (subVerified dateStr (A ++ (v ++ (B ++ (r ++ (C ++ (t ++ D))))))).1).1).1 = _
    rw [e1]
    show (subTable records (subLastRun dateStr
        (A ++ (repVerified dateStr ++ (B ++ (r ++ (C ++ (t ++ D))))))).1).1 = _
    rw [e2]
    show (subTable records
        ((A ++ (repVerified dateStr ++ B)) ++ (repLastRun dateStr ++ (C ++ (t ++ D))))).1 = _
    rw [e3]
    simp [List.append_assoc]
  · simp [buildRows, sortedResults, List.length_insertionSort]

/-- Claim C2, witness: a concrete document with prose on all four sides. -/
theorem c2_sync_frame_witness :
    (updateContent ("June 2025").toList [⟨"rumdl", 1/20⟩]
        (("# Intro\n").toList ++ (("Last verified: March 2024.").toList
          ++ (("\nprose\n> ").toList ++ (("Last run:\n> March 2024.").toList
            ++ (("\n\nmid\n").toList
              ++ (("| Tool | Type | Mean | vs rumdl |\n| - | - | - | - |\n| **old** | Lint | 9 ms | 9.0x |\n").toList
                ++ ("tail\n").toList))))))).1
      = ("# Intro\n").toList ++ (repVerified ("June 2025").toList
          ++ (("\nprose\n> ").toList ++ (repLastRun ("June 2025").toList
            ++ (("\n\nmid\n").toList
              ++ (newTable [⟨"rumdl", 1/20⟩] ++ ("tail\n").toList))))) :=
  (c2_sync_frame ("June 2025").toList [⟨"rumdl", 1/20⟩]
      ("# Intro\n").toList ("Last verified: March 2024.").toList
      ("\nprose\n> ").toList ("Last run:\n> March 2024.").toList
      ("\n\nmid\n").toList
      ("| Tool | Type | Mean | vs rumdl |\n| - | - | - | - |\n| **old** | Lint | 9 ms | 9.0x |\n").toList
      ("tail\n").toList
      (by decide) (by decide) (by decide) (by decide) (by decide) (by decide)
      (by decide) (by decide) (by decide) (by decide) (by decide) (by decide)).1

/-- Claim C10: the two date-stamp substitutions use `re.subn` with no count
argument, so they rewrite every occurrence of their anchor pattern: for any
document splitting into a prefix and two or more occurrence sites of the
anchor (with no further matches elsewhere), every site is replaced and the
returned count is the number of sites. -/
theorem c10_replaces_all (dateStr p0 q0 : List Char)
    (occs1 occs2 : List (List Char × List Char))
    (hl1 : 2 ≤ occs1.length) (hs1 : segsOk matchVerified occs1 = true)
    (h01 : noMatchBelow matchVerified p0 (assemble occs1) = true)
    (hl2 : 2 ≤ occs2.length) (hs2 : segsOk matchLastRun occs2 = true)
    (h02 : noMatchBelow matchLastRun q0 (assemble occs2) = true) :
    subVerified dateStr (p0 ++ assemble occs1)
      = (p0 ++ assembleR (repVerified dateStr) occs1, occs1.length)
  ∧ subLastRun dateStr (q0 ++ assemble occs2)
      = (q0 ++ assembleR (repLastRun dateStr) occs2, occs2.length) :=
  ⟨subn_segments _ h01 hs1, subn_segments _ h02 hs2⟩

/-- Claim C10, witness: two occurrences of each date anchor, both
rewritten, count 2. -/
theorem c10_replaces_all_witness :
    subVerified ("June 2025").toList (("head\n").toList
        ++ assemble [(("Last verified: May 2020.").toList, ("\nmid\n").toList),
          (("Last verified: May 2021.").toList, ("\nend").toList)])
      = (("head\n").toList ++ assembleR (repVerified ("June 2025").toList)
          [(("Last verified: May 2020.").toList, ("\nmid\n").toList),
            (("Last verified: May 2021.").toList, ("\nend").toList)], 2)
  ∧ subLastRun ("June 2025").toList (("head\n").toList
        ++ assemble [(("Last run:\n> May 2020.").toList, ("\nmid\n").toList),
          (("Last run:\n> May 2021.").toList, ("\nend").toList)])
      = (("head\n").toList ++ assembleR (repLastRun ("June 2025").toList)
          [(("Last run:\n> May 2020.").toList, ("\nmid\n").toList),
            (("Last run:\n> May 2021.").toList, ("\nend").toList)], 2) :=
  c10_replaces_all ("June 2025").toList ("head\n").toList ("head\n").toList
    [(("Last verified: May 2020.").toList, ("\nmid\n").toList),
      (("Last verified: May 2021.").toList, ("\nend").toList)]
    [(("Last run:\n> May 2020.").toList, ("\nmid\n").toList),
      (("Last run:\n> May 2021.").toList, ("\nend").toList)]
    (by decide) (by decide) (by decide) (by decide) (by decide) (by decide)

end Rumdl
